import Mathlib

/-!
Verification development for the `claude-chatbot` terminal client.

The Rust sources are shallowly embedded here:
* `src/mcp.rs`    — tool dispatch, calculator expression evaluator, mock weather tool;
* `src/artifacts.rs` — the line-scanning artifact extractor and attribute parser;
* `src/ui.rs`     — the key-event handler, the `send_message` turn logic, and the
  commit of the assistant message into the history.

Modelling conventions:
* Rust `&str` / `String` values are embedded as `List Char` (named `Str` below),
  which keeps every scanner inductively defined and decidable.
* Rust `f64` is embedded as an exact value type `FVal` (a rational together with
  the special values `inf`, `-inf`, `NaN`).  IEEE rounding of finite arithmetic
  and the shortest-round-trip decimal display are not modelled; arithmetic is
  exact on rationals and the display is exact for integral and special values,
  which covers every value the specification's examples exercise.
* `Uuid::new_v4()` (a fresh random token per call) is embedded as an explicit
  supply `gen : ℕ → Str` together with a cursor threaded through the scanner
  state: drawing a fresh id yields `gen cursor` and advances the cursor.
* `serde_json::Value` is embedded as the inductive `Json`; indexing a missing
  key yields `Json.null` exactly as `Value::index` does.
* Asynchronous calls complete synchronously in the source (each `await` is on a
  directly-computed future except the HTTP transport); the transport outcome is
  passed to the embedded turn function as an explicit `Except` argument.
-/

abbrev Str := List Char

/-- Rust `str::contains` for a literal pattern: does `pat` occur as a
contiguous substring of `hay`? -/
def startsWith : Str → Str → Bool
  | _, [] => true
  | [], _ :: _ => false
  | c :: cs, p :: ps => c = p && startsWith cs ps

def containsSub : Str → Str → Bool
  | [], pat => pat.isEmpty
  | c :: cs, pat => startsWith (c :: cs) pat || containsSub cs pat

/-- Rust `str::split(c)` collected into a vector: always nonempty, one entry
per separator occurrence plus one. -/
def splitOnChar (c : Char) : Str → List Str
  | [] => [[]]
  | x :: xs =>
    match splitOnChar c xs with
    | [] => if x = c then [[], []] else [[x]]
    | h :: t => if x = c then [] :: h :: t else (x :: h) :: t

/-- Join with a single separator character; left inverse of `splitOnChar`. -/
def joinWithChar (c : Char) : List Str → Str
  | [] => []
  | [x] => x
  | x :: y :: ys => x ++ c :: joinWithChar c (y :: ys)

/-- Rust `expr.replace(" ", "")`. -/
def removeSpaces (s : Str) : Str := s.filter fun c => c != ' '

/-- Rust `content_lines.join("\n")`. -/
def joinNL (ls : List Str) : Str := joinWithChar '\n' ls

/-- Rust `str::lines()`: split on `'\n'`, strip one trailing `'\r'` per line,
and do not produce a final empty line for a trailing newline. -/
def stripCR (l : Str) : Str :=
  if l.getLast? = some '\r' then l.dropLast else l

def linesOf (s : Str) : List Str :=
  if s.isEmpty then []
  else
    (splitOnChar '\n' (if s.getLast? = some '\n' then s.dropLast else s)).map stripCR

/-- Rust `str::trim` (whitespace characters stripped from both ends). -/
def trimStr (s : Str) : Str :=
  ((s.dropWhile Char.isWhitespace).reverse.dropWhile Char.isWhitespace).reverse

/-! ## Embedding of `serde_json::Value` -/

/-- An exact fraction: numerator and (positive, not necessarily reduced)
denominator.  Used in place of `f64`'s finite values; keeping the
representation unreduced makes every arithmetic step a structural
`Int`/`Nat` computation that the kernel evaluates directly. -/
structure Frac where
  num : ℤ
  den : ℕ
deriving DecidableEq

inductive Json where
  | null
  | bool (b : Bool)
  | num (q : Frac)
  | str (s : Str)
  | arr (xs : List Json)
  | obj (fields : List (Str × Json))

/-- `Value::index` (`input["key"]`): field lookup on objects, `Null` otherwise. -/
def Json.index (j : Json) (key : Str) : Json :=
  match j with
  | Json.obj fields =>
    match fields.find? (fun kv => kv.fst == key) with
    | some kv => kv.snd
    | none => Json.null
  | _ => Json.null

/-- `Value::as_str`. -/
def Json.asStr : Json → Option Str
  | Json.str s => some s
  | _ => none

/-! ## Embedding of `f64` values and parsing (`str::parse::<f64>`) -/

def Frac.neg (a : Frac) : Frac := ⟨-a.num, a.den⟩

def Frac.add (a b : Frac) : Frac := ⟨a.num * b.den + b.num * a.den, a.den * b.den⟩

def Frac.sub (a b : Frac) : Frac := ⟨a.num * b.den - b.num * a.den, a.den * b.den⟩

def Frac.mul (a b : Frac) : Frac := ⟨a.num * b.num, a.den * b.den⟩

/-- Division of fractions with a nonzero divisor; the divisor's sign is moved
into the numerator so that the denominator stays nonnegative. -/
def Frac.div (a b : Frac) : Frac :=
  if 0 ≤ b.num then ⟨a.num * b.den, a.den * b.num.toNat⟩
  else ⟨-(a.num * b.den), a.den * (-b.num).toNat⟩

def Frac.isZero (a : Frac) : Bool := a.num = 0

def Frac.isPos (a : Frac) : Bool := 0 < a.num

def Frac.isNeg (a : Frac) : Bool := a.num < 0

/-- Scale a fraction by `10 ^ e` for an integer exponent `e`. -/
def Frac.scale10 (a : Frac) (e : ℤ) : Frac :=
  if 0 ≤ e then ⟨a.num * (10 : ℤ) ^ e.toNat, a.den⟩
  else ⟨a.num, a.den * 10 ^ (-e).toNat⟩

inductive FVal where
  | finite (q : Frac)
  | inf
  | neginf
  | nan
deriving DecidableEq

def digitToNat (c : Char) : ℕ := c.toNat - 48

def natOfDigits (ds : Str) : ℕ := ds.foldl (fun n c => n * 10 + digitToNat c) 0

def allDigits (ds : Str) : Bool := ds.all fun c => c.isDigit

/-- Mantissa of a float literal: `digits`, `digits.digits`, `digits.` or
`.digits`, requiring at least one digit overall. -/
def parseMantissa (m : Str) : Option Frac :=
  match splitOnChar '.' m with
  | [a] =>
    if allDigits a && !a.isEmpty then some ⟨natOfDigits a, 1⟩ else none
  | [a, b] =>
    if allDigits a && allDigits b && !(a.isEmpty && b.isEmpty) then
      some ⟨natOfDigits a * 10 ^ b.length + natOfDigits b, 10 ^ b.length⟩
    else none
  | _ => none

/-- Exponent part after `e`/`E`: optional sign then at least one digit. -/
def parseExponent (e : Str) : Option ℤ :=
  let sd : Bool × Str :=
    match e with
    | '+' :: r => (false, r)
    | '-' :: r => (true, r)
    | r => (false, r)
  if allDigits sd.snd && !sd.snd.isEmpty then
    some (if sd.fst then -(natOfDigits sd.snd : ℤ) else (natOfDigits sd.snd : ℤ))
  else none

/-- Rust `str::parse::<f64>`: optional sign, then a case-insensitive keyword
(`inf`, `infinity`, `nan`) or a decimal literal with optional exponent.
Finite values are kept exactly as rationals (IEEE rounding not modelled). -/
def parseF64 (s : Str) : Option FVal :=
  let sd : Bool × Str :=
    match s with
    | '+' :: r => (false, r)
    | '-' :: r => (true, r)
    | r => (false, r)
  let low := sd.snd.map Char.toLower
  if low = "inf".toList || low = "infinity".toList then
    some (if sd.fst then FVal.neginf else FVal.inf)
  else if low = "nan".toList then some FVal.nan
  else
    match splitOnChar 'e' low with
    | [m] => (parseMantissa m).map fun q => FVal.finite (if sd.fst then q.neg else q)
    | [m, ex] =>
      match parseMantissa m, parseExponent ex with
      | some q, some e =>
        some (FVal.finite (if sd.fst then (q.scale10 e).neg else q.scale10 e))
      | _, _ => none
    | _ => none

/-! IEEE-style arithmetic on `FVal` (exact on finite rationals). -/

def FVal.add : FVal → FVal → FVal
  | FVal.finite a, FVal.finite b => FVal.finite (a.add b)
  | FVal.nan, _ => FVal.nan
  | _, FVal.nan => FVal.nan
  | FVal.inf, FVal.neginf => FVal.nan
  | FVal.neginf, FVal.inf => FVal.nan
  | FVal.inf, _ => FVal.inf
  | _, FVal.inf => FVal.inf
  | FVal.neginf, _ => FVal.neginf
  | _, FVal.neginf => FVal.neginf

def FVal.sub : FVal → FVal → FVal
  | FVal.finite a, FVal.finite b => FVal.finite (a.sub b)
  | FVal.nan, _ => FVal.nan
  | _, FVal.nan => FVal.nan
  | FVal.inf, FVal.inf => FVal.nan
  | FVal.neginf, FVal.neginf => FVal.nan
  | FVal.inf, _ => FVal.inf
  | _, FVal.inf => FVal.neginf
  | FVal.neginf, _ => FVal.neginf
  | _, FVal.neginf => FVal.inf

def FVal.mul : FVal → FVal → FVal
  | FVal.finite a, FVal.finite b => FVal.finite (a.mul b)
  | FVal.nan, _ => FVal.nan
  | _, FVal.nan => FVal.nan
  | FVal.inf, FVal.inf => FVal.inf
  | FVal.inf, FVal.neginf => FVal.neginf
  | FVal.neginf, FVal.inf => FVal.neginf
  | FVal.neginf, FVal.neginf => FVal.inf
  | FVal.inf, FVal.finite b =>
    if b.isPos then FVal.inf else if b.isNeg then FVal.neginf else FVal.nan
  | FVal.finite a, FVal.inf =>
    if a.isPos then FVal.inf else if a.isNeg then FVal.neginf else FVal.nan
  | FVal.neginf, FVal.finite b =>
    if b.isPos then FVal.neginf else if b.isNeg then FVal.inf else FVal.nan
  | FVal.finite a, FVal.neginf =>
    if a.isPos then FVal.neginf else if a.isNeg then FVal.inf else FVal.nan

def FVal.div : FVal → FVal → FVal
  | FVal.finite a, FVal.finite b =>
    if b.isZero then
      if a.isPos then FVal.inf else if a.isNeg then FVal.neginf else FVal.nan
    else FVal.finite (a.div b)
  | FVal.nan, _ => FVal.nan
  | _, FVal.nan => FVal.nan
  | FVal.inf, FVal.inf => FVal.nan
  | FVal.inf, FVal.neginf => FVal.nan
  | FVal.neginf, FVal.inf => FVal.nan
  | FVal.neginf, FVal.neginf => FVal.nan
  | FVal.inf, FVal.finite b => if b.isNeg then FVal.neginf else FVal.inf
  | FVal.neginf, FVal.finite b => if b.isNeg then FVal.inf else FVal.neginf
  | FVal.finite _, FVal.inf => FVal.finite ⟨0, 1⟩
  | FVal.finite _, FVal.neginf => FVal.finite ⟨0, 1⟩

def natDigitChar (n : ℕ) : Char := Char.ofNat (48 + n)

/-- Fractional decimal digits of the remainder `r` over denominator `d`
(`0 ≤ r < d`), up to a fuel bound, stopping at zero remainder. -/
def fracDigits : ℕ → ℕ → ℕ → Str
  | 0, _, _ => []
  | fuel + 1, r, d =>
    if r = 0 then []
    else natDigitChar (r * 10 / d) :: fracDigits fuel (r * 10 % d) d

/-- Rust `format!("{}", x)` for an `f64` value.  Exact for integral and
special values (the only ones the specification's examples produce); a
non-integral finite value is rendered by plain decimal expansion, the
shortest-round-trip refinement of `f64` display being outside this model. -/
def fvalToString : FVal → Str
  | FVal.inf => "inf".toList
  | FVal.neginf => "-inf".toList
  | FVal.nan => "NaN".toList
  | FVal.finite q =>
    let sign : Str := if q.num < 0 then "-".toList else []
    let n : ℕ := q.num.natAbs
    let rem : ℕ := n % q.den
    if rem = 0 then sign ++ (toString (n / q.den)).toList
    else sign ++ (toString (n / q.den)).toList ++ '.' :: fracDigits 17 rem q.den

/-! ## Embedding of `src/mcp.rs` (`McpHandler`) -/

def invalidFloatMsg : Str := "invalid float literal".toList

def emptyFloatMsg : Str := "cannot parse float from empty string".toList

/-- Display of Rust's `ParseFloatError` for a failing input `s`: the `Empty`
kind ("cannot parse float from empty string") when `s` is empty, the
`Invalid` kind ("invalid float literal") otherwise. -/
def floatErrMsg (s : Str) : Str :=
  if s.isEmpty then emptyFloatMsg else invalidFloatMsg

/-- One operator branch of `McpHandler::evaluate_expression`: if the cleaned
text contains `op`, split on it; with exactly two parts both operands must
parse, `?` returning the first failing operand's parse error; otherwise
fall through to `fallback`. -/
def tryBinop (op : Char) (f : FVal → FVal → FVal) (cleaned : Str)
    (fallback : Except Str FVal) : Except Str FVal :=
  if cleaned.contains op then
    match splitOnChar op cleaned with
    | [a, b] =>
      match parseF64 a, parseF64 b with
      | some x, some y => Except.ok (f x y)
      | none, _ => Except.error (floatErrMsg a)
      | some _, none => Except.error (floatErrMsg b)
    | _ => fallback
  else fallback

/-- `McpHandler::evaluate_expression`: strip spaces, try `+`, `-`, `*`, `/`
in that order (each only when exactly one occurrence splits the text in two),
finally parse the whole text as a single number, wrapping that last failure
as "Parse error: <the parse error's display>". -/
def evaluate_expression (expr : Str) : Except Str FVal :=
  let cleaned := removeSpaces expr
  tryBinop '+' FVal.add cleaned
    (tryBinop '-' FVal.sub cleaned
      (tryBinop '*' FVal.mul cleaned
        (tryBinop '/' FVal.div cleaned
          (match parseF64 cleaned with
           | some v => Except.ok v
           | none => Except.error ("Parse error: ".toList ++ floatErrMsg cleaned)))))

def exprKey : Str := "expression".toList
def locationKey : Str := "location".toList
def calculatorName : Str := "calculator".toList
def weatherName : Str := "weather".toList

/-- `McpHandler::calculator`: a missing or non-string `expression` field is a
tool error; an evaluation failure is converted into an `Ok` "Error: …" result
string. -/
def calculator (input : Json) : Except Str Str :=
  match (Json.index input exprKey).asStr with
  | none => Except.error ("Missing expression".toList)
  | some expr =>
    match evaluate_expression expr with
    | Except.ok v => Except.ok ("Result: ".toList ++ fvalToString v)
    | Except.error e => Except.ok ("Error: ".toList ++ e)

def weather_data : List (Str × Str) :=
  [("temperature".toList, "22°C".toList),
   ("condition".toList, "Partly cloudy".toList),
   ("humidity".toList, "65%".toList),
   ("wind".toList, "10 km/h NE".toList)]

/-- `McpHandler::weather`: deterministic mock report. -/
def weather (input : Json) : Except Str Str :=
  match (Json.index input locationKey).asStr with
  | none => Except.error ("Missing location".toList)
  | some loc =>
    Except.ok (weather_data.foldl
      (fun acc kv => acc ++ "  ".toList ++ kv.fst ++ ": ".toList ++ kv.snd ++ "\n".toList)
      ("Weather for ".toList ++ loc ++ ":\n".toList))

/-- `McpHandler::handle_tool_call`: closed switch over tool names; an
unrecognized name is an error. -/
def handle_tool_call (name : Str) (input : Json) : Except Str Str :=
  if name = calculatorName then calculator input
  else if name = weatherName then weather input
  else Except.error ("Unknown tool: ".toList ++ name)

instance {ε α : Type} [DecidableEq ε] [DecidableEq α] : DecidableEq (Except ε α) := fun a b =>
  match a, b with
  | Except.ok x, Except.ok y =>
    if h : x = y then isTrue (by rw [h]) else isFalse (by intro hc; cases hc; exact h rfl)
  | Except.error x, Except.error y =>
    if h : x = y then isTrue (by rw [h]) else isFalse (by intro hc; cases hc; exact h rfl)
  | Except.ok _, Except.error _ => isFalse (by intro hc; cases hc)
  | Except.error _, Except.ok _ => isFalse (by intro hc; cases hc)

/-! ## Embedding of `src/artifacts.rs` (`ArtifactManager`) -/

structure Artifact where
  id : Str
  title : Str
  content_type : Str
  content : Str
deriving DecidableEq

/-- Remainder of `hay` after the first occurrence of `pat`
(`hay[idx + pat.len()..]` for `idx = hay.find(pat)`). -/
def findDrop (hay pat : Str) : Option Str :=
  match hay with
  | [] => if pat.isEmpty then some [] else none
  | c :: cs =>
    if startsWith (c :: cs) pat then some ((c :: cs).drop pat.length)
    else findDrop cs pat

def identKey : Str := "identifier".toList
def titleKey : Str := "title".toList
def typeKey : Str := "type".toList
def untitledStr : Str := "Untitled".toList
def textPlainStr : Str := "text/plain".toList
def openMark : Str := "<artifact".toList
def closeMark : Str := "</artifact>".toList

/-- `ArtifactManager::extract_attribute`: scan for `attr="`, then take up to
the next `"`; no closing quote means no attribute. -/
def extract_attribute (line attr : Str) : Option Str :=
  match findDrop line (attr ++ '=' :: '"' :: []) with
  | none => none
  | some rest =>
    if rest.contains '"' then some (rest.takeWhile fun c => c != '"') else none

/-- Loop state of `ArtifactManager::extract_artifacts`, plus the cursor into
the fresh-id supply that stands in for `Uuid::new_v4()`. -/
structure ExtractCfg where
  artifacts : List Artifact
  in_artifact : Bool
  current : Option Artifact
  content_lines : List Str
  fresh : ℕ
deriving DecidableEq

/-- One iteration of the `for line in text.lines()` loop of
`extract_artifacts`: an opening-marker line starts a new artifact (reading
the three optional attributes, drawing a fresh id when `identifier` is
absent), a closing-marker line emits the current artifact with the
accumulated body, and any other line is accumulated while inside. -/
def stepLine (gen : ℕ → Str) (cfg : ExtractCfg) (line : Str) : ExtractCfg :=
  if containsSub line openMark then
    let idf : Str × ℕ :=
      match extract_attribute line identKey with
      | some s => (s, cfg.fresh)
      | none => (gen cfg.fresh, cfg.fresh + 1)
    { cfg with
      in_artifact := true
      current := some ⟨idf.fst, (extract_attribute line titleKey).getD untitledStr,
                      (extract_attribute line typeKey).getD textPlainStr, []⟩
      content_lines := []
      fresh := idf.snd }
  else if containsSub line closeMark then
    match cfg.current with
    | some a =>
      { cfg with
        in_artifact := false
        current := none
        artifacts := cfg.artifacts ++ [{ a with content := joinNL cfg.content_lines }]
        content_lines := [] }
    | none =>
      { cfg with
        in_artifact := false
        current := none
        content_lines := [] }
  else if cfg.in_artifact then
    { cfg with content_lines := cfg.content_lines ++ [line] }
  else cfg

def runLines (gen : ℕ → Str) (cfg : ExtractCfg) (ls : List Str) : ExtractCfg :=
  ls.foldl (stepLine gen) cfg

def initCfg (n0 : ℕ) : ExtractCfg := ⟨[], false, none, [], n0⟩

/-- `ArtifactManager::extract_artifacts`, with the fresh-id supply explicit. -/
def extract_artifacts (text : Str) (gen : ℕ → Str) : List Artifact :=
  (runLines gen (initCfg 0) (linesOf text)).artifacts

/-- Blank out an artifact's id, leaving title, content type and body. -/
def eraseId (a : Artifact) : Artifact := { a with id := [] }

/-! ## Embedding of `src/api.rs` (message data model) and `src/ui.rs` (`ChatApp`) -/

inductive ContentBlock where
  | text (t : Str)
  | toolUse (id name : Str) (input : Json)
  | toolResult (tool_use_id : Str) (content : Str)

inductive MessageContent where
  | text (t : Str)
  | blocks (bs : List ContentBlock)

structure Message where
  role : Str
  content : MessageContent

inductive ResponseContent where
  | text (t : Str)
  | toolUse (id name : Str) (input : Json)

def userRole : Str := "user".toList
def assistantRole : Str := "assistant".toList
def errPrefix : Str := "Error: ".toList

/-- The mutable fields of `ChatApp` that the claims concern: the message
history, the input buffer, the artifact list and the scroll offset.  The
`fresh` cursor threads the fresh-id supply across turns.  The HTTP client,
the markdown renderer and the tool handler are stateless and have no
embedded fields. -/
structure AppState where
  messages : List Message
  input : Str
  artifacts : List Artifact
  scroll_offset : ℕ
  fresh : ℕ

/-- The `for content in response.content` loop of `ChatApp::send_message`:
text items are accumulated into blocks and into the full-text buffer;
every tool-call item is dispatched immediately, a failed dispatch
propagating through `?` and abandoning the blocks, a successful one
appending `ToolUse` then `ToolResult` with the same call id. -/
def processContent : List ResponseContent → Except Str (List ContentBlock × Str)
  | [] => Except.ok ([], [])
  | ResponseContent.text t :: rest =>
    match processContent rest with
    | Except.ok (bs, ft) => Except.ok (ContentBlock.text t :: bs, t ++ ft)
    | Except.error e => Except.error e
  | ResponseContent.toolUse id name inp :: rest =>
    match handle_tool_call name inp with
    | Except.error e => Except.error e
    | Except.ok r =>
      match processContent rest with
      | Except.ok (bs, ft) =>
        Except.ok (ContentBlock.toolUse id name inp :: ContentBlock.toolResult id r :: bs, ft)
      | Except.error e => Except.error e

/-- `ChatApp::send_message` from the point the transport result is known:
a transport error propagates; otherwise the response items are processed,
artifacts are extracted from the accumulated full text, and the assistant
message is committed — as plain text when the block list is exactly one
`Text` block, as the full block list otherwise. -/
def send_message (gen : ℕ → Str) (st : AppState)
    (resp : Except Str (List ResponseContent)) : Except Str AppState :=
  match resp with
  | Except.error e => Except.error e
  | Except.ok content =>
    match processContent content with
    | Except.error e => Except.error e
    | Except.ok (blocks, full_text) =>
      let ex := runLines gen (initCfg st.fresh) (linesOf full_text)
      let msg : Message :=
        match blocks with
        | [ContentBlock.text t] => ⟨assistantRole, MessageContent.text t⟩
        | _ => ⟨assistantRole, MessageContent.blocks blocks⟩
      Except.ok
        { st with
          artifacts := st.artifacts ++ ex.artifacts
          fresh := ex.fresh
          messages := st.messages ++ [msg] }

/-- Key events of the `ChatApp::run` loop.  `enter` carries the transport
outcome of the turn it triggers (the one suspension point); `ctrlQ` breaks
the loop, and `tab` hands the latest artifact to the external viewer —
neither changes the conversation state. -/
inductive Key where
  | char (c : Char)
  | enter (resp : Except Str (List ResponseContent))
  | backspace
  | up
  | down
  | tab
  | ctrlQ
  | other

/-- One iteration of the key-event match in `ChatApp::run`.  `usize`
increments are taken modulo `2 ^ 64`; the guarded decrement cannot
underflow. -/
def stepKey (gen : ℕ → Str) (st : AppState) (k : Key) : AppState :=
  match k with
  | Key.char c => { st with input := st.input ++ [c] }
  | Key.backspace => { st with input := st.input.dropLast }
  | Key.up =>
    if 0 < st.scroll_offset then { st with scroll_offset := st.scroll_offset - 1 } else st
  | Key.down => { st with scroll_offset := (st.scroll_offset + 1) % 2 ^ 64 }
  | Key.tab => st
  | Key.ctrlQ => st
  | Key.other => st
  | Key.enter resp =>
    if (trimStr st.input).isEmpty then st
    else
      let st1 : AppState :=
        { st with
          input := []
          messages := st.messages ++ [⟨userRole, MessageContent.text st.input⟩] }
      match send_message gen st1 resp with
      | Except.ok st2 => st2
      | Except.error e =>
        { st1 with
          messages := st1.messages ++ [⟨assistantRole, MessageContent.text (errPrefix ++ e)⟩] }

/-- One user turn that fails with a transport error: the user types `p.fst`
(replacing the input buffer) and presses Enter, and the request fails with
error `p.snd`. -/
def errorTurn (gen : ℕ → Str) (st : AppState) (p : Str × Str) : AppState :=
  stepKey gen { st with input := p.fst } (Key.enter (Except.error p.snd))

/-- The payload of a successful tool result, `none` on a tool error. -/
def exceptOkPayload : Except Str Str → Option Str
  | Except.ok s => some s
  | Except.error _ => none

/-- Does a committed message's content contain a `ToolUse` block? -/
def contentMentionsToolUse : MessageContent → Bool
  | MessageContent.text _ => false
  | MessageContent.blocks bs =>
    bs.any fun b =>
      match b with
      | ContentBlock.toolUse _ _ _ => true
      | _ => false

/-- Does a committed message's content contain a `ToolResult` block? -/
def contentMentionsToolResult : MessageContent → Bool
  | MessageContent.text _ => false
  | MessageContent.blocks bs =>
    bs.any fun b =>
      match b with
      | ContentBlock.toolResult _ _ => true
      | _ => false

/-- Two concrete fresh-id supplies standing for the random draws two distinct
calls of `Uuid::new_v4` would observe. -/
def genA : ℕ → Str := fun _ => ['a']

def genB : ℕ → Str := fun _ => ['b']

/-! ## Lemmas about the splitter used by the expression evaluator -/

theorem splitOnChar_ne_nil (c : Char) (s : Str) : splitOnChar c s ≠ [] := by
  cases s with
  | nil => simp [splitOnChar]
  | cons x xs =>
    unfold splitOnChar
    cases hxs : splitOnChar c xs with
    | nil => by_cases hx : x = c <;> simp [hx]
    | cons h1 t => by_cases hx : x = c <;> simp [hx]

theorem joinWithChar_cons_cons (c : Char) (x : Char) (h1 : Str) (t : List Str) :
    joinWithChar c ((x :: h1) :: t) = x :: joinWithChar c (h1 :: t) := by
  cases t <;> rfl

theorem joinWithChar_splitOnChar (c : Char) (s : Str) :
    joinWithChar c (splitOnChar c s) = s := by
  induction s with
  | nil => rfl
  | cons x xs ih =>
    unfold splitOnChar
    cases hxs : splitOnChar c xs with
    | nil => exact absurd hxs (splitOnChar_ne_nil c xs)
    | cons h1 t =>
      rw [hxs] at ih
      by_cases hx : x = c
      · simp only [if_pos hx]
        rw [show joinWithChar c ([] :: h1 :: t) = c :: joinWithChar c (h1 :: t) from rfl,
          ih, hx]
      · simp only [if_neg hx]
        rw [joinWithChar_cons_cons, ih]

theorem splitOnChar_eq_two (c : Char) (s a b : Str)
    (h : splitOnChar c s = [a, b]) : s = a ++ c :: b := by
  have hj := joinWithChar_splitOnChar c s
  rw [h] at hj
  rw [show joinWithChar c [a, b] = a ++ c :: b from rfl] at hj
  exact hj.symm

/-! ## Soundness of the calculator's success shapes -/

def opChars : List Char := ['+', '-', '*', '/']

/-- The specification's description of a supported expression after removing
whitespace: one binary operator among `+ - * /` applied to two numeric
operands. -/
def BinopShape (c : Str) : Prop :=
  ∃ a op b, op ∈ opChars ∧ c = a ++ op :: b ∧ parseF64 a ≠ none ∧ parseF64 b ≠ none

theorem tryBinop_ok (op : Char) (f : FVal → FVal → FVal) (cleaned : Str)
    (fb : Except Str FVal) (v : FVal)
    (h : tryBinop op f cleaned fb = Except.ok v) :
    (∃ a b, cleaned = a ++ op :: b ∧ parseF64 a ≠ none ∧ parseF64 b ≠ none) ∨
      fb = Except.ok v := by
  unfold tryBinop at h
  by_cases hc : cleaned.contains op = true
  · rw [if_pos hc] at h
    split at h
    · rename_i a b hsp
      split at h
      · rename_i x y hpa hpb
        exact Or.inl ⟨a, b, splitOnChar_eq_two op cleaned a b hsp,
          by rw [hpa]; exact fun hx => Option.noConfusion hx,
          by rw [hpb]; exact fun hx => Option.noConfusion hx⟩
      · cases h
      · cases h
    · exact Or.inr h
  · rw [if_neg hc] at h
    exact Or.inr h

/-- Success shapes of `evaluate_expression`: the evaluator only ever answers
on a single binary-operator expression over parseable operands or on a bare
parseable number; every other input shape yields an error, never a value. -/
theorem evaluate_expression_ok_shape (s : Str) (v : FVal)
    (h : evaluate_expression s = Except.ok v) :
    BinopShape (removeSpaces s) ∨ parseF64 (removeSpaces s) ≠ none := by
  simp only [evaluate_expression] at h
  rcases tryBinop_ok _ _ _ _ _ h with h1 | h2
  · obtain ⟨a, b, hab, hpa, hpb⟩ := h1
    exact Or.inl ⟨a, '+', b, by decide, hab, hpa, hpb⟩
  rcases tryBinop_ok _ _ _ _ _ h2 with h1 | h3
  · obtain ⟨a, b, hab, hpa, hpb⟩ := h1
    exact Or.inl ⟨a, '-', b, by decide, hab, hpa, hpb⟩
  rcases tryBinop_ok _ _ _ _ _ h3 with h1 | h4
  · obtain ⟨a, b, hab, hpa, hpb⟩ := h1
    exact Or.inl ⟨a, '*', b, by decide, hab, hpa, hpb⟩
  rcases tryBinop_ok _ _ _ _ _ h4 with h1 | h5
  · obtain ⟨a, b, hab, hpa, hpb⟩ := h1
    exact Or.inl ⟨a, '/', b, by decide, hab, hpa, hpb⟩
  cases hp : parseF64 (removeSpaces s) with
  | none => rw [hp] at h5; cases h5
  | some w => exact Or.inr (fun hx => Option.noConfusion hx)


/-- Counterexample to claim C4: the bare numeric literal "-5" does not yield
"Result: -5".  Because the cleaned text contains a minus sign, the evaluator
splits it into an empty left operand and "5"; the empty operand fails to
parse with the empty-string parse error, and the calculator tool returns
that error string. -/
theorem c4_bare_negative_counterexample :
    evaluate_expression ("-5".toList) = Except.error emptyFloatMsg ∧
    exceptOkPayload (calculator (Json.obj [(exprKey, Json.str ("-5".toList))])) =
      some ("Error: cannot parse float from empty string".toList) ∧
    ("Error: cannot parse float from empty string".toList : Str) ≠
      ("Result: -5".toList : Str) :=
  ⟨by decide, by decide, by decide⟩

/-- Claim C4 (amended): the calculator evaluates expressions that are, after
removing whitespace, one binary operator among `+ - * /` applied to two
numeric operands, or a bare number whose text contains no operator
character: "2 + 3" yields "Result: 5", "42" yields "Result: 42", "10/0"
yields "Result: inf" without crashing.  A bare literal containing an
operator character — such as "-5" — is instead treated as an operator
expression and yields the explicit parse-error string reporting the failing
operand (the empty-operand message for "-5", the invalid-literal message for
a multi-operator expression such as "2+3*4"); and a successful evaluation
only ever happens on a single-operator or bare-number shape, never
producing a wrong answer for any other shape. -/
theorem c4_calculator_amended :
    calculator (Json.obj [(exprKey, Json.str ("2 + 3".toList))]) =
      Except.ok ("Result: 5".toList) ∧
    calculator (Json.obj [(exprKey, Json.str ("42".toList))]) =
      Except.ok ("Result: 42".toList) ∧
    calculator (Json.obj [(exprKey, Json.str ("-5".toList))]) =
      Except.ok ("Error: cannot parse float from empty string".toList) ∧
    calculator (Json.obj [(exprKey, Json.str ("10/0".toList))]) =
      Except.ok ("Result: inf".toList) ∧
    evaluate_expression ("2+3*4".toList) = Except.error invalidFloatMsg ∧
    ∀ s v, evaluate_expression s = Except.ok v →
      BinopShape (removeSpaces s) ∨ parseF64 (removeSpaces s) ≠ none :=
  ⟨by decide, by decide, by decide, by decide, by decide,
    fun s v h => evaluate_expression_ok_shape s v h⟩

/-- Witness for the quantified part of the amended claim C4, at the concrete
successful evaluation of "7/2". -/
theorem c4_calculator_amended_witness :
    BinopShape (removeSpaces ("7/2".toList)) ∨
      parseF64 (removeSpaces ("7/2".toList)) ≠ none :=
  c4_calculator_amended.2.2.2.2.2 ("7/2".toList) (FVal.finite ⟨7, 2⟩) (by decide)

/-! ## Lemmas about the artifact extraction scanner -/

theorem runLines_append (gen : ℕ → Str) (cfg : ExtractCfg) (l1 l2 : List Str) :
    runLines gen cfg (l1 ++ l2) = runLines gen (runLines gen cfg l1) l2 :=
  List.foldl_append _ _ _ _

theorem runLines_cons (gen : ℕ → Str) (cfg : ExtractCfg) (l : Str) (ls : List Str) :
    runLines gen cfg (l :: ls) = runLines gen (stepLine gen cfg l) ls := rfl

theorem stepLine_noMark (gen : ℕ → Str) (cfg : ExtractCfg) (l : Str)
    (ho : containsSub l openMark = false) (hc : containsSub l closeMark = false) :
    stepLine gen cfg l =
      if cfg.in_artifact then { cfg with content_lines := cfg.content_lines ++ [l] }
      else cfg := by
  unfold stepLine
  rw [ho, hc]
  simp

theorem stepLine_open (gen : ℕ → Str) (cfg : ExtractCfg) (l : Str)
    (ho : containsSub l openMark = true) :
    stepLine gen cfg l =
      { cfg with
        in_artifact := true
        current := some ⟨(extract_attribute l identKey).getD (gen cfg.fresh),
                        (extract_attribute l titleKey).getD untitledStr,
                        (extract_attribute l typeKey).getD textPlainStr, []⟩
        content_lines := []
        fresh := if extract_attribute l identKey = none then cfg.fresh + 1
                 else cfg.fresh } := by
  unfold stepLine
  rw [ho]
  cases hid : extract_attribute l identKey <;> simp [hid]

theorem stepLine_close_some (gen : ℕ → Str) (cfg : ExtractCfg) (l : Str) (a : Artifact)
    (ho : containsSub l openMark = false) (hc : containsSub l closeMark = true)
    (hcur : cfg.current = some a) :
    stepLine gen cfg l =
      { cfg with
        in_artifact := false
        current := none
        artifacts := cfg.artifacts ++ [{ a with content := joinNL cfg.content_lines }]
        content_lines := [] } := by
  unfold stepLine
  rw [ho, hc, hcur]
  simp

theorem runLines_skip (gen : ℕ → Str) (ls : List Str) : ∀ cfg : ExtractCfg,
    cfg.in_artifact = false →
    (∀ l ∈ ls, containsSub l openMark = false ∧ containsSub l closeMark = false) →
    runLines gen cfg ls = cfg := by
  induction ls with
  | nil => intro cfg _ _; rfl
  | cons l ls ih =>
    intro cfg hout h
    have hl := h l (by simp)
    rw [runLines_cons, stepLine_noMark gen cfg l hl.1 hl.2, hout]
    simp only [Bool.false_eq_true, if_false]
    exact ih cfg hout fun x hx => h x (by simp [hx])

theorem runLines_inside (gen : ℕ → Str) (ls : List Str) : ∀ cfg : ExtractCfg,
    cfg.in_artifact = true →
    (∀ l ∈ ls, containsSub l openMark = false ∧ containsSub l closeMark = false) →
    runLines gen cfg ls = { cfg with content_lines := cfg.content_lines ++ ls } := by
  induction ls with
  | nil => intro cfg _ _; simp [runLines]
  | cons l ls ih =>
    intro cfg hin h
    have hl := h l (by simp)
    rw [runLines_cons, stepLine_noMark gen cfg l hl.1 hl.2, hin]
    simp only [if_true]
    rw [ih _ rfl fun x hx => h x (by simp [hx])]
    simp

theorem stepLine_artifacts_noClose (gen : ℕ → Str) (cfg : ExtractCfg) (l : Str)
    (hc : containsSub l closeMark = false) :
    (stepLine gen cfg l).artifacts = cfg.artifacts := by
  unfold stepLine
  by_cases ho : containsSub l openMark = true
  · simp [ho]
  · simp only [Bool.not_eq_true] at ho
    rw [ho, hc]
    simp only [Bool.false_eq_true, if_false]
    split <;> rfl

theorem runLines_artifacts_noClose (gen : ℕ → Str) (ls : List Str) : ∀ cfg : ExtractCfg,
    (∀ l ∈ ls, containsSub l closeMark = false) →
    (runLines gen cfg ls).artifacts = cfg.artifacts := by
  induction ls with
  | nil => intro cfg _; rfl
  | cons l ls ih =>
    intro cfg h
    rw [runLines_cons, ih _ fun x hx => h x (by simp [hx]),
      stepLine_artifacts_noClose gen cfg l (h l (by simp))]

theorem runLines_singleton (gen : ℕ → Str) (cfg : ExtractCfg) (l : Str) :
    runLines gen cfg [l] = stepLine gen cfg l := rfl

theorem stepLine_artifacts_open (gen : ℕ → Str) (cfg : ExtractCfg) (l : Str)
    (ho : containsSub l openMark = true) :
    (stepLine gen cfg l).artifacts = cfg.artifacts := by
  unfold stepLine
  simp [ho]

/-- Claim C5: a text whose lines consist of marker-free lines, one opening
marker line, marker-free body lines, a closing marker line and marker-free
trailing lines extracts to exactly one artifact whose body is the body lines
joined by newline, with the `identifier`, `title` and `type` attributes of
the opening line and the defaults — a fresh generated id, "Untitled",
"text/plain" — for the absent ones. -/
theorem c5_single_block_extraction (gen : ℕ → Str) (text : Str)
    (pre body post : List Str) (openL closeL : Str)
    (hlines : linesOf text = pre ++ openL :: (body ++ closeL :: post))
    (hpre : ∀ l ∈ pre, containsSub l openMark = false ∧ containsSub l closeMark = false)
    (hopen : containsSub openL openMark = true)
    (hbody : ∀ l ∈ body, containsSub l openMark = false ∧ containsSub l closeMark = false)
    (hcloseO : containsSub closeL openMark = false)
    (hclose : containsSub closeL closeMark = true)
    (hpost : ∀ l ∈ post, containsSub l openMark = false ∧ containsSub l closeMark = false) :
    extract_artifacts text gen =
      [⟨(extract_attribute openL identKey).getD (gen 0),
        (extract_attribute openL titleKey).getD untitledStr,
        (extract_attribute openL typeKey).getD textPlainStr,
        joinNL body⟩] := by
  unfold extract_artifacts
  rw [hlines,
    show pre ++ openL :: (body ++ closeL :: post)
        = pre ++ ([openL] ++ (body ++ ([closeL] ++ post))) from by simp,
    runLines_append, runLines_skip gen pre (initCfg 0) rfl hpre,
    runLines_append, runLines_singleton, stepLine_open gen (initCfg 0) openL hopen,
    runLines_append]
  rw [runLines_inside gen body _ rfl hbody]
  rw [runLines_append, runLines_singleton,
    stepLine_close_some gen _ closeL _ hcloseO hclose rfl]
  rw [runLines_skip gen post _ rfl hpost]
  simp [initCfg, joinNL]

/-- Witness for claim C5 at a concrete five-line text with an attribute-free
opening marker. -/
theorem c5_single_block_extraction_witness :
    extract_artifacts ("x\n<artifact>\nhello\nworld\n</artifact>\ny".toList) genA =
      [⟨(extract_attribute ("<artifact>".toList) identKey).getD (genA 0),
        (extract_attribute ("<artifact>".toList) titleKey).getD untitledStr,
        (extract_attribute ("<artifact>".toList) typeKey).getD textPlainStr,
        joinNL ["hello".toList, "world".toList]⟩] :=
  c5_single_block_extraction genA ("x\n<artifact>\nhello\nworld\n</artifact>\ny".toList)
    ["x".toList] ["hello".toList, "world".toList] ["y".toList]
    ("<artifact>".toList) ("</artifact>".toList)
    (by decide) (by decide) (by decide) (by decide) (by decide) (by decide) (by decide)

/-- Claim C8: the extractor's lossy-parse policy.  First, appending an
opening-marker line followed by any lines none of which contains a closing
marker leaves the extracted artifacts unchanged — the partial artifact
contributes nothing.  Second, a text that starts with an opening marker and
contains no closing marker at all extracts to the empty sequence.  Third,
when a second opening marker appears while inside an artifact, the artifact
in progress is abandoned and only the later, closed one is emitted, with its
body and attributes taken from the second opening line. -/
theorem c8_lossy_parse_policy :
    (∀ (gen : ℕ → Str) (n0 : ℕ) (A : List Str) (openL : Str) (B : List Str),
      containsSub openL openMark = true →
      (∀ l ∈ B, containsSub l closeMark = false) →
      (runLines gen (initCfg n0) (A ++ openL :: B)).artifacts =
        (runLines gen (initCfg n0) A).artifacts) ∧
    (∀ (gen : ℕ → Str) (text : Str) (openL : Str) (B : List Str),
      linesOf text = openL :: B →
      containsSub openL openMark = true →
      (∀ l ∈ openL :: B, containsSub l closeMark = false) →
      extract_artifacts text gen = []) ∧
    (∀ (gen : ℕ → Str) (text : Str) (open1 open2 closeL : Str) (body1 body2 : List Str),
      linesOf text = open1 :: (body1 ++ open2 :: (body2 ++ [closeL])) →
      containsSub open1 openMark = true →
      containsSub open2 openMark = true →
      (∀ l ∈ body1, containsSub l openMark = false ∧ containsSub l closeMark = false) →
      (∀ l ∈ body2, containsSub l openMark = false ∧ containsSub l closeMark = false) →
      containsSub closeL openMark = false →
      containsSub closeL closeMark = true →
      extract_artifacts text gen =
        [⟨(extract_attribute open2 identKey).getD
            (gen (if extract_attribute open1 identKey = none then 1 else 0)),
          (extract_attribute open2 titleKey).getD untitledStr,
          (extract_attribute open2 typeKey).getD textPlainStr,
          joinNL body2⟩]) := by
  refine ⟨?_, ?_, ?_⟩
  · intro gen n0 A openL B hopen hB
    rw [show A ++ openL :: B = A ++ ([openL] ++ B) from by simp,
      runLines_append, runLines_append, runLines_singleton]
    rw [runLines_artifacts_noClose gen B _ hB,
      stepLine_artifacts_open gen _ openL hopen]
  · intro gen text openL B hlines hopen hnc
    unfold extract_artifacts
    rw [hlines, runLines_artifacts_noClose gen (openL :: B) _ hnc]
    rfl
  · intro gen text open1 open2 closeL body1 body2 hlines ho1 ho2 hb1 hb2 hcO hcC
    unfold extract_artifacts
    rw [hlines,
      show open1 :: (body1 ++ open2 :: (body2 ++ [closeL]))
          = [open1] ++ (body1 ++ ([open2] ++ (body2 ++ [closeL]))) from by simp,
      runLines_append, runLines_singleton, stepLine_open gen (initCfg 0) open1 ho1,
      runLines_append]
    rw [runLines_inside gen body1 _ rfl hb1]
    rw [runLines_append, runLines_singleton]
    rw [stepLine_open gen _ open2 ho2]
    rw [runLines_append]
    rw [runLines_inside gen body2 _ rfl hb2]
    rw [runLines_singleton,
      stepLine_close_some gen _ closeL _ hcO hcC rfl]
    simp [initCfg, joinNL]

/-- Witness for claim C8: an unterminated opening marker yields the empty
sequence. -/
theorem c8_lossy_parse_policy_witness :
    extract_artifacts ("<artifact>\nnever closed".toList) genA = [] :=
  c8_lossy_parse_policy.2.1 genA ("<artifact>\nnever closed".toList)
    ("<artifact>".toList) ["never closed".toList] (by decide) (by decide) (by decide)

theorem stepLine_close_none (gen : ℕ → Str) (cfg : ExtractCfg) (l : Str)
    (ho : containsSub l openMark = false) (hc : containsSub l closeMark = true)
    (hcur : cfg.current = none) :
    stepLine gen cfg l =
      { cfg with in_artifact := false, current := none, content_lines := [] } := by
  unfold stepLine
  rw [ho, hc, hcur]
  simp

theorem stepLine_erase (g1 g2 : ℕ → Str) (c1 c2 : ExtractCfg) (line : Str)
    (h1 : c1.artifacts.map eraseId = c2.artifacts.map eraseId)
    (h2 : c1.in_artifact = c2.in_artifact)
    (h3 : c1.current.map eraseId = c2.current.map eraseId)
    (h4 : c1.content_lines = c2.content_lines)
    (h5 : c1.fresh = c2.fresh) :
    (stepLine g1 c1 line).artifacts.map eraseId
        = (stepLine g2 c2 line).artifacts.map eraseId ∧
    (stepLine g1 c1 line).in_artifact = (stepLine g2 c2 line).in_artifact ∧
    (stepLine g1 c1 line).current.map eraseId
        = (stepLine g2 c2 line).current.map eraseId ∧
    (stepLine g1 c1 line).content_lines = (stepLine g2 c2 line).content_lines ∧
    (stepLine g1 c1 line).fresh = (stepLine g2 c2 line).fresh := by
  by_cases ho : containsSub line openMark = true
  · rw [stepLine_open g1 c1 line ho, stepLine_open g2 c2 line ho]
    exact ⟨h1, rfl, by simp [eraseId], rfl, by simp [h5]⟩
  · rw [Bool.not_eq_true] at ho
    by_cases hc : containsSub line closeMark = true
    · cases hc1 : c1.current with
      | none =>
        have hc2 : c2.current = none := by
          cases hx : c2.current with
          | none => rfl
          | some a2 => rw [hc1, hx] at h3; simp at h3
        rw [stepLine_close_none g1 c1 line ho hc hc1,
          stepLine_close_none g2 c2 line ho hc hc2]
        exact ⟨h1, rfl, rfl, rfl, h5⟩
      | some a1 =>
        have hx : ∃ a2, c2.current = some a2 ∧ eraseId a1 = eraseId a2 := by
          cases hy : c2.current with
          | none => rw [hc1, hy] at h3; simp at h3
          | some a2 =>
            rw [hc1, hy] at h3
            simp only [Option.map_some'] at h3
            exact ⟨a2, rfl, Option.some.inj h3⟩
        obtain ⟨a2, hc2, he⟩ := hx
        rw [stepLine_close_some g1 c1 line a1 ho hc hc1,
          stepLine_close_some g2 c2 line a2 ho hc hc2]
        have ht := congrArg Artifact.title he
        have hty := congrArg Artifact.content_type he
        simp only [eraseId] at ht hty
        refine ⟨?_, rfl, rfl, rfl, h5⟩
        simp [List.map_append, h1, h4, eraseId, ht, hty]
    · rw [Bool.not_eq_true] at hc
      rw [stepLine_noMark g1 c1 line ho hc, stepLine_noMark g2 c2 line ho hc, h2]
      split
      · exact ⟨h1, rfl, h3, by simp [h4], h5⟩
      · exact ⟨h1, h2, h3, h4, h5⟩

theorem runLines_erase (g1 g2 : ℕ → Str) (ls : List Str) : ∀ c1 c2 : ExtractCfg,
    c1.artifacts.map eraseId = c2.artifacts.map eraseId →
    c1.in_artifact = c2.in_artifact →
    c1.current.map eraseId = c2.current.map eraseId →
    c1.content_lines = c2.content_lines →
    c1.fresh = c2.fresh →
    (runLines g1 c1 ls).artifacts.map eraseId
        = (runLines g2 c2 ls).artifacts.map eraseId ∧
    (runLines g1 c1 ls).in_artifact = (runLines g2 c2 ls).in_artifact ∧
    (runLines g1 c1 ls).current.map eraseId
        = (runLines g2 c2 ls).current.map eraseId ∧
    (runLines g1 c1 ls).content_lines = (runLines g2 c2 ls).content_lines ∧
    (runLines g1 c1 ls).fresh = (runLines g2 c2 ls).fresh := by
  induction ls with
  | nil => intro c1 c2 h1 h2 h3 h4 h5; exact ⟨h1, h2, h3, h4, h5⟩
  | cons l ls ih =>
    intro c1 c2 h1 h2 h3 h4 h5
    rw [runLines_cons, runLines_cons]
    obtain ⟨k1, k2, k3, k4, k5⟩ := stepLine_erase g1 g2 c1 c2 l h1 h2 h3 h4 h5
    exact ih _ _ k1 k2 k3 k4 k5

theorem stepLine_gen_eq (g1 g2 : ℕ → Str) (cfg : ExtractCfg) (line : Str)
    (h : containsSub line openMark = true → extract_attribute line identKey ≠ none) :
    stepLine g1 cfg line = stepLine g2 cfg line := by
  by_cases ho : containsSub line openMark = true
  · cases hid : extract_attribute line identKey with
    | none => exact absurd hid (h ho)
    | some s =>
      unfold stepLine
      rw [ho]
      simp [hid]
  · rw [Bool.not_eq_true] at ho
    unfold stepLine
    rw [ho]
    simp

theorem runLines_gen_eq (g1 g2 : ℕ → Str) (ls : List Str) : ∀ cfg : ExtractCfg,
    (∀ l ∈ ls, containsSub l openMark = true → extract_attribute l identKey ≠ none) →
    runLines g1 cfg ls = runLines g2 cfg ls := by
  induction ls with
  | nil => intro cfg _; rfl
  | cons l ls ih =>
    intro cfg h
    rw [runLines_cons, runLines_cons, stepLine_gen_eq g1 g2 cfg l (h l (by simp))]
    exact ih _ fun x hx => h x (by simp [hx])

/-- Counterexample to claim C2: two calls of `extract_artifacts` on the same
text are not equal when an artifact block omits the `identifier` attribute —
each call draws a fresh id from `Uuid::new_v4`, modelled by the two supplies
`genA` and `genB` the two calls observe, and the resulting ids differ. -/
theorem c2_determinism_counterexample :
    extract_artifacts ("<artifact>\nbody\n</artifact>".toList) genA ≠
      extract_artifacts ("<artifact>\nbody\n</artifact>".toList) genB := by decide

/-- Claim C2 (amended): `extract_artifacts` mutates no other state and is
deterministic up to the freshly drawn ids: the titles, content types and
bodies of the extracted sequence never depend on the fresh-id supply, and on
a text in which every opening-marker line carries an explicit `identifier`
attribute two calls yield entirely equal sequences, ids included.  Ids of
blocks without an `identifier` attribute come from the fresh-id supply and
differ between calls. -/
theorem c2_extract_deterministic_amended (text : Str) (g1 g2 : ℕ → Str) :
    (extract_artifacts text g1).map eraseId = (extract_artifacts text g2).map eraseId ∧
    ((∀ l ∈ linesOf text, containsSub l openMark = true →
        extract_attribute l identKey ≠ none) →
      extract_artifacts text g1 = extract_artifacts text g2) := by
  constructor
  · exact (runLines_erase g1 g2 (linesOf text) (initCfg 0) (initCfg 0)
      rfl rfl rfl rfl rfl).1
  · intro h
    unfold extract_artifacts
    rw [runLines_gen_eq g1 g2 (linesOf text) (initCfg 0) h]

/-- Witness for the amended claim C2 at a concrete text whose single block
carries an explicit identifier. -/
theorem c2_extract_deterministic_amended_witness :
    extract_artifacts ("<artifact identifier=\"k\">\nb\n</artifact>".toList) genA =
      extract_artifacts ("<artifact identifier=\"k\">\nb\n</artifact>".toList) genB :=
  (c2_extract_deterministic_amended
    ("<artifact identifier=\"k\">\nb\n</artifact>".toList) genA genB).2 (by decide)

/-! ## Lemmas about the turn cycle of `ChatApp::send_message` -/

theorem processContent_ok_toolUse (contents : List ResponseContent) :
    ∀ (blocks : List ContentBlock) (ftext : Str),
    processContent contents = Except.ok (blocks, ftext) →
    ∀ (id name : Str) (inp : Json), ResponseContent.toolUse id name inp ∈ contents →
    ∃ r A B, handle_tool_call name inp = Except.ok r ∧
      blocks = A ++ ContentBlock.toolUse id name inp ::
        ContentBlock.toolResult id r :: B := by
  induction contents with
  | nil => intro blocks ftext h id name inp hm; cases hm
  | cons item rest ih =>
    intro blocks ftext h id name inp hm
    cases item with
    | text t =>
      simp only [processContent] at h
      cases hr : processContent rest with
      | error e => rw [hr] at h; cases h
      | ok p =>
        obtain ⟨bs, ft⟩ := p
        rw [hr] at h
        simp only [Except.ok.injEq, Prod.mk.injEq] at h
        obtain ⟨hb, hf⟩ := h
        rcases List.mem_cons.mp hm with heq | hmem
        · cases heq
        · obtain ⟨r, A, B, hok, hbs⟩ := ih bs ft hr id name inp hmem
          exact ⟨r, ContentBlock.text t :: A, B, hok, by rw [← hb, hbs]; rfl⟩
    | toolUse id2 name2 inp2 =>
      simp only [processContent] at h
      cases hh : handle_tool_call name2 inp2 with
      | error e => rw [hh] at h; cases h
      | ok r2 =>
        rw [hh] at h
        cases hr : processContent rest with
        | error e => rw [hr] at h; cases h
        | ok p =>
          obtain ⟨bs, ft⟩ := p
          rw [hr] at h
          simp only [Except.ok.injEq, Prod.mk.injEq] at h
          obtain ⟨hb, hf⟩ := h
          rcases List.mem_cons.mp hm with heq | hmem
          · cases heq
            exact ⟨r2, [], bs, hh, by rw [← hb]; rfl⟩
          · obtain ⟨r, A, B, hok, hbs⟩ := ih bs ft hr id name inp hmem
            exact ⟨r, ContentBlock.toolUse id2 name2 inp2 ::
              ContentBlock.toolResult id2 r2 :: A, B, hok, by rw [← hb, hbs]; rfl⟩

theorem send_message_commit (gen : ℕ → Str) (st : AppState)
    (contents : List ResponseContent) (st' : AppState)
    (hs : send_message gen st (Except.ok contents) = Except.ok st') :
    ∃ blocks ftext m,
      processContent contents = Except.ok (blocks, ftext) ∧
      st'.messages = st.messages ++ [m] ∧ m.role = assistantRole ∧
      ((∃ t, blocks = [ContentBlock.text t] ∧ m.content = MessageContent.text t) ∨
       ((∀ t, blocks ≠ [ContentBlock.text t]) ∧
         m.content = MessageContent.blocks blocks)) := by
  simp only [send_message] at hs
  cases hp : processContent contents with
  | error e => rw [hp] at hs; cases hs
  | ok p =>
    obtain ⟨blocks, ftext⟩ := p
    rw [hp] at hs
    simp only [Except.ok.injEq] at hs
    subst hs
    refine ⟨blocks, ftext, ?_⟩
    rcases blocks with _ | ⟨b, bs⟩
    · exact ⟨⟨assistantRole, MessageContent.blocks []⟩, rfl, rfl, rfl,
        Or.inr ⟨fun t ht => List.noConfusion ht, rfl⟩⟩
    rcases b with t | ⟨id, name, inp⟩ | ⟨tid, rc⟩
    · rcases bs with _ | ⟨b2, bs2⟩
      · exact ⟨⟨assistantRole, MessageContent.text t⟩, rfl, rfl, rfl,
          Or.inl ⟨t, rfl, rfl⟩⟩
      · refine ⟨⟨assistantRole,
          MessageContent.blocks (ContentBlock.text t :: b2 :: bs2)⟩, rfl, rfl, rfl,
          Or.inr ⟨?_, rfl⟩⟩
        intro t2 ht2
        simp at ht2
    · refine ⟨⟨assistantRole,
        MessageContent.blocks (ContentBlock.toolUse id name inp :: bs)⟩, rfl, rfl, rfl,
        Or.inr ⟨?_, rfl⟩⟩
      intro t2 ht2
      simp at ht2
    · refine ⟨⟨assistantRole,
        MessageContent.blocks (ContentBlock.toolResult tid rc :: bs)⟩, rfl, rfl, rfl,
        Or.inr ⟨?_, rfl⟩⟩
      intro t2 ht2
      simp at ht2

/-- Claim C7: the committed assistant message stores plain-text content
exactly when the accumulated block sequence is exactly one `Text` block; for
zero blocks, several blocks, or a single non-`Text` block, the full block
sequence is stored. -/
theorem c7_commit_shape (gen : ℕ → Str) (st : AppState)
    (contents : List ResponseContent) (blocks : List ContentBlock) (ftext : Str)
    (st' : AppState)
    (hp : processContent contents = Except.ok (blocks, ftext))
    (hs : send_message gen st (Except.ok contents) = Except.ok st') :
    ∃ m, st'.messages = st.messages ++ [m] ∧ m.role = assistantRole ∧
      ((∃ t, blocks = [ContentBlock.text t] ∧ m.content = MessageContent.text t) ∨
       ((∀ t, blocks ≠ [ContentBlock.text t]) ∧
         m.content = MessageContent.blocks blocks)) := by
  obtain ⟨blocks2, ftext2, m, hp2, hmsg, hrole, hshape⟩ :=
    send_message_commit gen st contents st' hs
  rw [hp] at hp2
  simp only [Except.ok.injEq, Prod.mk.injEq] at hp2
  obtain ⟨hb, hf⟩ := hp2
  subst hb
  exact ⟨m, hmsg, hrole, hshape⟩

/-- Witness for claim C7 at a concrete single-text response. -/
theorem c7_commit_shape_witness :
    ∃ m, (⟨[⟨assistantRole, MessageContent.text ("ok".toList)⟩], [], [], 0, 0⟩
        : AppState).messages = ([] : List Message) ++ [m] ∧
      m.role = assistantRole ∧
      ((∃ t, [ContentBlock.text ("ok".toList)] = [ContentBlock.text t] ∧
        m.content = MessageContent.text t) ∨
       ((∀ t, [ContentBlock.text ("ok".toList)] ≠ [ContentBlock.text t]) ∧
        m.content = MessageContent.blocks [ContentBlock.text ("ok".toList)])) :=
  c7_commit_shape genA ⟨[], [], [], 0, 0⟩ [ResponseContent.text ("ok".toList)]
    [ContentBlock.text ("ok".toList)] ("ok".toList)
    ⟨[⟨assistantRole, MessageContent.text ("ok".toList)⟩], [], [], 0, 0⟩ rfl rfl

/-- Counterexample to claim C3: a model response consisting of a single
`ToolUse` item naming an unrecognized tool does not commit a message holding
the `ToolUse` and its `ToolResult` — the dispatch error propagates through
`?`, the accumulated blocks are dropped, and the committed assistant message
is the synthetic error text with no tool blocks at all. -/
theorem c3_tool_pairing_counterexample :
    (stepKey genA ⟨[], "go".toList, [], 0, 0⟩
        (Key.enter (Except.ok
          [ResponseContent.toolUse ("t9".toList) ("teleport".toList) Json.null]))).messages =
      [⟨userRole, MessageContent.text ("go".toList)⟩,
       ⟨assistantRole, MessageContent.text ("Error: Unknown tool: teleport".toList)⟩] ∧
    ((stepKey genA ⟨[], "go".toList, [], 0, 0⟩
        (Key.enter (Except.ok
          [ResponseContent.toolUse ("t9".toList) ("teleport".toList) Json.null]))).messages.all
      fun m => !contentMentionsToolUse m.content && !contentMentionsToolResult m.content)
      = true :=
  ⟨rfl, rfl⟩

/-- Claim C3 (amended): for every model response containing a `ToolUse` item
whose turn processing succeeds — that is, every tool call in the response
dispatches without a tool error — the committed assistant message stores the
block sequence, and it contains that `ToolUse` block with a `ToolResult`
block directly after it carrying the same call identifier.  When a dispatch
fails, the turn instead commits a synthetic error text without the blocks. -/
theorem c3_tool_pairing_amended (gen : ℕ → Str) (st : AppState)
    (contents : List ResponseContent) (st' : AppState)
    (hs : send_message gen st (Except.ok contents) = Except.ok st')
    (id name : Str) (inp : Json)
    (hmem : ResponseContent.toolUse id name inp ∈ contents) :
    ∃ m bs r A B, st'.messages = st.messages ++ [m] ∧ m.role = assistantRole ∧
      m.content = MessageContent.blocks bs ∧
      bs = A ++ ContentBlock.toolUse id name inp ::
        ContentBlock.toolResult id r :: B := by
  obtain ⟨blocks, ftext, m, hp, hmsg, hrole, hshape⟩ :=
    send_message_commit gen st contents st' hs
  obtain ⟨r, A, B, hok, hbs⟩ :=
    processContent_ok_toolUse contents blocks ftext hp id name inp hmem
  have hnot : ∀ t, blocks ≠ [ContentBlock.text t] := by
    intro t ht
    rw [ht] at hbs
    have hlen := congrArg List.length hbs
    simp [List.length_append] at hlen
    omega
  rcases hshape with ⟨t, hbt, _⟩ | ⟨_, hcontent⟩
  · exact absurd hbt (hnot t)
  · exact ⟨m, blocks, r, A, B, hmsg, hrole, hcontent, hbs⟩

/-- Witness for the amended claim C3 at a concrete calculator tool call. -/
theorem c3_tool_pairing_amended_witness :
    ∃ m bs r A B,
      (⟨[⟨assistantRole, MessageContent.blocks
          [ContentBlock.toolUse ("t1".toList) ("calculator".toList)
            (Json.obj [(exprKey, Json.str ("2 + 3".toList))]),
           ContentBlock.toolResult ("t1".toList) ("Result: 5".toList)]⟩],
        [], [], 0, 0⟩ : AppState).messages = ([] : List Message) ++ [m] ∧
      m.role = assistantRole ∧
      m.content = MessageContent.blocks bs ∧
      bs = A ++ ContentBlock.toolUse ("t1".toList) ("calculator".toList)
          (Json.obj [(exprKey, Json.str ("2 + 3".toList))]) ::
        ContentBlock.toolResult ("t1".toList) r :: B :=
  c3_tool_pairing_amended genA ⟨[], [], [], 0, 0⟩
    [ResponseContent.toolUse ("t1".toList) ("calculator".toList)
      (Json.obj [(exprKey, Json.str ("2 + 3".toList))])]
    ⟨[⟨assistantRole, MessageContent.blocks
        [ContentBlock.toolUse ("t1".toList) ("calculator".toList)
          (Json.obj [(exprKey, Json.str ("2 + 3".toList))]),
         ContentBlock.toolResult ("t1".toList) ("Result: 5".toList)]⟩],
      [], [], 0, 0⟩ rfl
    ("t1".toList) ("calculator".toList)
    (Json.obj [(exprKey, Json.str ("2 + 3".toList))]) (by simp)

/-- Counterexample to claim C1: a tool failure is not always folded into the
transcript as a `ToolResult`.  With a response holding a text block and a
calculator call whose input lacks the required `expression` field, the
dispatch error propagates through `?`: the accumulated blocks (including the
text block) are discarded, no `ToolResult` is committed anywhere, and the
turn commits only the synthetic assistant error text. -/
theorem c1_tool_error_policy_counterexample :
    (stepKey genA ⟨[], "hi".toList, [], 0, 0⟩
        (Key.enter (Except.ok [ResponseContent.text ("partial".toList),
          ResponseContent.toolUse ("t1".toList) ("calculator".toList)
            (Json.obj [])]))).messages =
      [⟨userRole, MessageContent.text ("hi".toList)⟩,
       ⟨assistantRole, MessageContent.text ("Error: Missing expression".toList)⟩] ∧
    ((stepKey genA ⟨[], "hi".toList, [], 0, 0⟩
        (Key.enter (Except.ok [ResponseContent.text ("partial".toList),
          ResponseContent.toolUse ("t1".toList) ("calculator".toList)
            (Json.obj [])]))).messages.all
      fun m => !contentMentionsToolResult m.content) = true :=
  ⟨rfl, rfl⟩

/-- Claim C1 (amended): only an arithmetic evaluation failure is converted
into a human-readable result string folded into the transcript as a normal
`ToolResult` of the committed assistant message (the calculator returns it
as a successful "Error: …" result); a missing required input field or an
unrecognized tool name instead aborts `send_message` through `?`, the
accumulated blocks are discarded, and the turn commits a synthetic
assistant error text, leaving the artifact list unchanged. -/
theorem c1_tool_error_policy_amended (gen : ℕ → Str) (st : AppState)
    (u id name : Str) (inp : Json)
    (hu : (trimStr u).isEmpty = false) :
    (∀ e, handle_tool_call name inp = Except.error e →
      (stepKey gen { st with input := u }
          (Key.enter (Except.ok [ResponseContent.toolUse id name inp]))).messages =
        st.messages ++ [⟨userRole, MessageContent.text u⟩,
          ⟨assistantRole, MessageContent.text (errPrefix ++ e)⟩] ∧
      (stepKey gen { st with input := u }
          (Key.enter (Except.ok [ResponseContent.toolUse id name inp]))).artifacts =
        st.artifacts) ∧
    (∀ r, handle_tool_call name inp = Except.ok r →
      (stepKey gen { st with input := u }
          (Key.enter (Except.ok [ResponseContent.toolUse id name inp]))).messages =
        st.messages ++ [⟨userRole, MessageContent.text u⟩,
          ⟨assistantRole, MessageContent.blocks
            [ContentBlock.toolUse id name inp,
             ContentBlock.toolResult id r]⟩]) ∧
    (∀ expr e2, (Json.index inp exprKey).asStr = some expr →
      evaluate_expression expr = Except.error e2 →
      handle_tool_call calculatorName inp = Except.ok ("Error: ".toList ++ e2)) := by
  refine ⟨?_, ?_, ?_⟩
  · intro e he
    simp only [stepKey, send_message, processContent, he, hu]
    simp
  · intro r hr
    simp only [stepKey, send_message, processContent, hr, hu]
    simp [linesOf, runLines, initCfg]
  · intro expr e2 hj heval
    simp only [handle_tool_call, if_pos rfl, calculator, hj, heval]
    simp

/-- Witness for the amended claim C1: a turn whose single tool call names an
unrecognized tool commits the synthetic error text. -/
theorem c1_tool_error_policy_amended_witness :
    (stepKey genA { (⟨[], [], [], 0, 0⟩ : AppState) with input := "q".toList }
        (Key.enter (Except.ok [ResponseContent.toolUse ("t2".toList)
          ("nosuch".toList) Json.null]))).messages =
      ([] : List Message) ++ [⟨userRole, MessageContent.text ("q".toList)⟩,
        ⟨assistantRole, MessageContent.text
          (errPrefix ++ "Unknown tool: nosuch".toList)⟩] ∧
    (stepKey genA { (⟨[], [], [], 0, 0⟩ : AppState) with input := "q".toList }
        (Key.enter (Except.ok [ResponseContent.toolUse ("t2".toList)
          ("nosuch".toList) Json.null]))).artifacts = ([] : List Artifact) :=
  (c1_tool_error_policy_amended genA ⟨[], [], [], 0, 0⟩ ("q".toList) ("t2".toList)
    ("nosuch".toList) Json.null (by decide)).1
    ("Unknown tool: nosuch".toList) rfl

theorem errorTurn_eq (gen : ℕ → Str) (st : AppState) (p : Str × Str)
    (h : (trimStr p.fst).isEmpty = false) :
    errorTurn gen st p =
      { st with
        input := []
        messages := st.messages ++ [⟨userRole, MessageContent.text p.fst⟩,
          ⟨assistantRole, MessageContent.text (errPrefix ++ p.snd)⟩] } := by
  simp only [errorTurn, stepKey, send_message, h]
  simp

/-- Claim C6: after `N` user turns each of which fails with a transport
error, the history has grown by exactly `2 N` messages (each turn appends
the user message and one synthetic assistant error text), the artifact list
is unchanged, and the previous history is a prefix of the new one — nothing
committed earlier is modified or removed. -/
theorem c6_transport_error_turns (gen : ℕ → Str) (st : AppState)
    (ps : List (Str × Str)) (h : ∀ p ∈ ps, (trimStr p.fst).isEmpty = false) :
    (ps.foldl (errorTurn gen) st).messages.length
        = st.messages.length + 2 * ps.length ∧
    (ps.foldl (errorTurn gen) st).artifacts = st.artifacts ∧
    ∃ tail, (ps.foldl (errorTurn gen) st).messages = st.messages ++ tail := by
  induction ps generalizing st with
  | nil => exact ⟨by simp, rfl, [], by simp⟩
  | cons p ps ih =>
    have hp := h p (by simp)
    obtain ⟨hl, ha, tail, ht⟩ := ih (errorTurn gen st p) fun q hq => h q (by simp [hq])
    rw [errorTurn_eq gen st p hp] at hl ha ht
    refine ⟨?_, ?_, ?_⟩
    · rw [List.foldl_cons, errorTurn_eq gen st p hp, hl]
      simp only [List.length_append, List.length_cons, List.length_nil]
      omega
    · rw [List.foldl_cons, errorTurn_eq gen st p hp, ha]
    · refine ⟨[⟨userRole, MessageContent.text p.fst⟩,
        ⟨assistantRole, MessageContent.text (errPrefix ++ p.snd)⟩] ++ tail, ?_⟩
      rw [List.foldl_cons, errorTurn_eq gen st p hp, ht]
      simp

/-- Witness for claim C6 at two concrete failing turns. -/
theorem c6_transport_error_turns_witness :
    (([("a".toList, "refused".toList), ("b".toList, "reset".toList)].foldl
        (errorTurn genA) (⟨[], [], [], 0, 0⟩ : AppState)).messages.length
      = ([] : List Message).length + 2 * 2) ∧
    ([("a".toList, "refused".toList), ("b".toList, "reset".toList)].foldl
        (errorTurn genA) (⟨[], [], [], 0, 0⟩ : AppState)).artifacts
      = ([] : List Artifact) ∧
    ∃ tail, ([("a".toList, "refused".toList), ("b".toList, "reset".toList)].foldl
        (errorTurn genA) (⟨[], [], [], 0, 0⟩ : AppState)).messages
      = ([] : List Message) ++ tail :=
  c6_transport_error_turns genA ⟨[], [], [], 0, 0⟩
    [("a".toList, "refused".toList), ("b".toList, "reset".toList)] (by decide)

/-- Claim C9: pressing Up when the scroll offset is zero leaves the whole
state unchanged (the guard prevents the `usize` decrement from underflowing),
pressing Up at a positive offset `k` yields `k - 1`, and after any sequence
of key events the offset — a `usize`, read as an integer — is never
negative. -/
theorem c9_scroll_never_negative (gen : ℕ → Str) (st : AppState) :
    (st.scroll_offset = 0 → stepKey gen st Key.up = st) ∧
    (∀ k, st.scroll_offset = k → 0 < k →
      (stepKey gen st Key.up).scroll_offset = k - 1) ∧
    (∀ ks : List Key, 0 ≤ ((ks.foldl (stepKey gen) st).scroll_offset : ℤ)) := by
  refine ⟨?_, ?_, fun ks => Int.natCast_nonneg _⟩
  · intro h0
    unfold stepKey
    rw [h0]
    simp
  · intro k hk hpos
    unfold stepKey
    rw [hk]
    simp [hpos]

/-- Witness for claim C9: Up at offset zero is the identity, Up at offset
three yields two. -/
theorem c9_scroll_never_negative_witness :
    stepKey genA (⟨[], [], [], 0, 0⟩ : AppState) Key.up = ⟨[], [], [], 0, 0⟩ ∧
    (stepKey genA (⟨[], [], [], 3, 0⟩ : AppState) Key.up).scroll_offset = 2 :=
  ⟨(c9_scroll_never_negative genA ⟨[], [], [], 0, 0⟩).1 rfl,
   (c9_scroll_never_negative genA ⟨[], [], [], 3, 0⟩).2.1 3 rfl (by decide)⟩

/-- Claim C10: pressing Enter while the input buffer trims to empty changes
nothing — the handler's guard fails, so no user message is appended, the
transport is never consulted, the artifact list is untouched, and the input
buffer keeps its exact whitespace content. -/
theorem c10_whitespace_enter_noop (gen : ℕ → Str) (st : AppState)
    (resp : Except Str (List ResponseContent))
    (h : (trimStr st.input).isEmpty = true) :
    stepKey gen st (Key.enter resp) = st := by
  unfold stepKey
  rw [h]
  simp

/-- Witness for claim C10 at a concrete whitespace-only input buffer and a
would-be transport error. -/
theorem c10_whitespace_enter_noop_witness :
    stepKey genA (⟨[], " \t ".toList, [], 0, 0⟩ : AppState)
        (Key.enter (Except.error ("boom".toList))) =
      ⟨[], " \t ".toList, [], 0, 0⟩ :=
  c10_whitespace_enter_noop genA ⟨[], " \t ".toList, [], 0, 0⟩
    (Except.error ("boom".toList)) (by decide)
